import Mathlib

/-!
# WizardDialog (api-catalog-ui): the category / content state machine

A shallow embedding of `src/api-catalog-ui/frontend/src/components/Wizard/WizardDialog.jsx`:
the component state `(selectedIndex, inputData)`, the handlers `getPrev`, `getNext`,
`handleInputChange`, `handleCategoryChange`, `closeWizard` and the render helper `loadInputs`.

Conventions of the embedding.

* A JavaScript number that the component stores in `selectedIndex` is an integer or `NaN`
  (`JSNumber`).  Integers are computed exactly, which is what double arithmetic does on the
  safe range `|n| < 2 ^ 53`; every index of an array and every array length lies far inside
  it.  `-0` is identified with `0` (array indexing, `+`, `%` and `===` do not tell them
  apart).
* A handler that would throw returns `Except.error`; `setState` is the record update of the
  fields it names.
* A plain object is the list of its own enumerable properties in `Object.entries` order.
-/

namespace WizardDialog

/-! ## JavaScript values used by the component -/

/-- Errors a handler can raise. -/
inductive JSError where
  | typeError
  deriving DecidableEq, Repr

deriving instance DecidableEq for Except

/-- Numbers stored in `selectedIndex`: an integer or `NaN`. -/
inductive JSNumber where
  | int (i : Int)
  | nan
  deriving DecidableEq, Repr

namespace JSNumber

/-- JavaScript `a + b`. -/
def add : JSNumber → JSNumber → JSNumber
  | int a, int b => int (a + b)
  | _, _ => nan

/-- JavaScript `a - b`. -/
def sub : JSNumber → JSNumber → JSNumber
  | int a, int b => int (a - b)
  | _, _ => nan

/-- JavaScript `a % b`: the remainder takes the sign of the dividend, and a zero divisor
gives `NaN`. -/
def mod : JSNumber → JSNumber → JSNumber
  | int a, int b => if b = 0 then nan else int (Int.tmod a b)
  | _, _ => nan

/-- The number is integer valued. -/
def isInteger : JSNumber → Bool
  | int _ => true
  | nan => false

end JSNumber

/-- `xs.length` of an array. -/
def arrayLength {α : Type} (xs : List α) : JSNumber :=
  JSNumber.int (xs.length : Int)

/-- `xs[n]` for an array `xs`; `none` stands for `undefined` (index out of range, negative
or `NaN`). -/
def arrayGet {α : Type} (xs : List α) : JSNumber → Option α
  | JSNumber.int i => if 0 ≤ i then xs[i.toNat]? else none
  | JSNumber.nan => none

/-! ## Plain objects with string values -/

/-- The array index a property key denotes, if any: a canonical decimal numeral
below `2 ^ 32 - 1`. -/
def arrayIndex? (k : String) : Option Nat :=
  let cs := k.data
  if cs.isEmpty || !cs.all Char.isDigit then none
  else if cs.head? == some '0' && cs.length != 1 then none
  else
    let n := cs.foldl (fun acc c => 10 * acc + (c.toNat - 48)) 0
    if n < 2 ^ 32 - 1 then some n else none

/-- Value of the first entry with key `k`. -/
def lookupEntry (k : String) : List (String × String) → Option String
  | [] => none
  | e :: es => if e.1 = k then some e.2 else lookupEntry k es

/-- Overwrite the value of every entry with key `k`, keeping its position. -/
def replaceEntry (k v : String) : List (String × String) → List (String × String)
  | [] => []
  | e :: es => (if e.1 = k then (k, v) else e) :: replaceEntry k v es

/-- Add the new array-index key `k` (index `n`): integer keys are enumerated first, in
ascending order. -/
def insertIndexed (n : Nat) (k v : String) : List (String × String) → List (String × String)
  | [] => [(k, v)]
  | e :: es =>
    match arrayIndex? e.1 with
    | some m => if m < n then e :: insertIndexed n k v es else (k, v) :: e :: es
    | none => (k, v) :: e :: es

/-- Entries after the property definition `[k]: v`: an existing key keeps its place and
takes the new value; a new array-index key goes among the integer keys; any other new key
goes last. -/
def defineEntry (k v : String) (es : List (String × String)) : List (String × String) :=
  if (lookupEntry k es).isSome then replaceEntry k v es
  else
    match arrayIndex? k with
    | some n => insertIndexed n k v es
    | none => es ++ [(k, v)]

theorem keys_replaceEntry (k v : String) (es : List (String × String)) :
    (replaceEntry k v es).map Prod.fst = es.map Prod.fst := by
  induction es with
  | nil => rfl
  | cons e es ih =>
    simp only [replaceEntry, List.map_cons, ih]
    by_cases h : e.1 = k
    · simp [h]
    · simp [h]

theorem keys_insertIndexed (n : Nat) (k v : String) (es : List (String × String)) :
    ((insertIndexed n k v es).map Prod.fst).Perm (k :: es.map Prod.fst) := by
  induction es with
  | nil => simp [insertIndexed]
  | cons e es ih =>
    simp only [insertIndexed]
    split
    · split
      · simp only [List.map_cons]
        exact (List.Perm.cons _ ih).trans (List.Perm.swap _ _ _)
      · simp
    · simp

theorem lookupEntry_eq_none_iff (k : String) (es : List (String × String)) :
    lookupEntry k es = none ↔ k ∉ es.map Prod.fst := by
  induction es with
  | nil => simp [lookupEntry]
  | cons e es ih =>
    simp only [lookupEntry, List.map_cons, List.mem_cons, not_or]
    by_cases h : e.1 = k
    · simp [h]
    · simp only [h, if_false, ih]
      constructor
      · intro h2
        exact ⟨fun h3 => h h3.symm, h2⟩
      · intro h2
        exact h2.2

theorem nodup_defineEntry (k v : String) (es : List (String × String))
    (h : (es.map Prod.fst).Nodup) : ((defineEntry k v es).map Prod.fst).Nodup := by
  unfold defineEntry
  split
  · rw [keys_replaceEntry]
    exact h
  · rename_i hk
    have hk2 : k ∉ es.map Prod.fst := by
      rw [← lookupEntry_eq_none_iff]
      cases hl : lookupEntry k es with
      | none => rfl
      | some x => simp [hl] at hk
    split
    · rw [(keys_insertIndexed _ k v es).nodup_iff]
      exact List.nodup_cons.mpr ⟨hk2, h⟩
    · rw [List.map_append, List.map_singleton]
      exact List.Nodup.append h (List.nodup_singleton _) (by simpa using hk2)

/-- A plain object whose property values are strings: its own enumerable properties in
enumeration order; keys are pairwise distinct. -/
structure JSObject where
  entries : List (String × String)
  nodup : (entries.map Prod.fst).Nodup
  deriving DecidableEq

namespace JSObject

/-- The object literal `{}`. -/
def empty : JSObject :=
  ⟨[], List.nodup_nil⟩

/-- `Object.keys(o)`. -/
def keys (o : JSObject) : List String :=
  o.entries.map Prod.fst

/-- `o[k]`; `none` stands for `undefined`. -/
def get (o : JSObject) (k : String) : Option String :=
  lookupEntry k o.entries

/-- The object `{ ...o, [k]: v }`. -/
def set (o : JSObject) (k v : String) : JSObject :=
  ⟨defineEntry k v o.entries, nodup_defineEntry k v o.entries o.nodup⟩

end JSObject

/-- The `content` property of a category: missing or `undefined`, `null`, or a plain
object. -/
inductive Content where
  | undefined
  | null
  | object (o : JSObject)
  deriving DecidableEq

/-- The object spread `{ ...content }`: `undefined` and `null` contribute no property. -/
def Content.spread : Content → JSObject
  | Content.undefined => JSObject.empty
  | Content.null => JSObject.empty
  | Content.object o => o

/-- One entry of `inputData`: the label `text`, the optional `content`, and its remaining
own properties. -/
structure Category where
  text : String
  content : Content
  other : List (String × String)
  deriving DecidableEq

/-! ## The component -/

/-- Props of the component; `wizardToggleDisplay` is an external callback that takes its
argument list and acts on an outside world `W`. -/
structure Props (W A : Type) where
  wizardIsOpen : Bool
  inputData : List Category
  wizardToggleDisplay : List A → W → W

/-- The state of the component, `this.state`. -/
structure State where
  selectedIndex : JSNumber
  inputData : List Category
  deriving DecidableEq

/-- The change event of a text input: `event.target.name` and `event.target.value`. -/
structure InputTarget where
  name : String
  value : String
  deriving DecidableEq

/-- The change event of a text input. -/
structure InputEvent where
  target : InputTarget
  deriving DecidableEq

/-- The change event of the category selector: `event.text`. -/
structure SelectEvent where
  text : String
  deriving DecidableEq

/-- A rendered `TextInput` element with the props `loadInputs` gives it (its `onChange` is
always `handleInputChange`). -/
structure TextInput where
  size : String
  name : String
  key : Nat
  placeholder : String
  value : Option String
  deriving DecidableEq

/-- What `loadInputs` returns: a string or an array of elements. -/
inductive Rendered where
  | text (s : String)
  | elements (xs : List TextInput)
  deriving DecidableEq

/-- The `TextInput` elements in a rendered value. -/
def Rendered.inputs : Rendered → List TextInput
  | Rendered.text _ => []
  | Rendered.elements xs => xs

/-- The state set by the constructor. -/
def constructor {W A : Type} (props : Props W A) : State :=
  { selectedIndex := JSNumber.int 0, inputData := props.inputData }

/-- The handler of the Previous button. -/
def getPrev (state : State) : Except JSError State :=
  let index := state.selectedIndex
  let len := arrayLength state.inputData
  Except.ok { state with
    selectedIndex := JSNumber.mod (JSNumber.sub (JSNumber.add index len) (JSNumber.int 1)) len }

/-- The handler of the Next button. -/
def getNext (state : State) : Except JSError State :=
  let index := state.selectedIndex
  let len := arrayLength state.inputData
  Except.ok { state with selectedIndex := JSNumber.mod (JSNumber.add index (JSNumber.int 1)) len }

/-- The handler of a text input change.  Reading `.content` of `undefined` throws, which
happens exactly when `selectedIndex` is not an index of `inputData`; otherwise the element
at `selectedIndex` of the copied array is replaced. -/
def handleInputChange (state : State) (event : InputEvent) : Except JSError State :=
  let name := event.target.name
  let inputData := state.inputData
  match arrayGet inputData state.selectedIndex, state.selectedIndex with
  | some objectToChange, JSNumber.int i =>
    Except.ok { state with
      inputData := inputData.set i.toNat
        { objectToChange with
          content := Content.object (objectToChange.content.spread.set name event.target.value) } }
  | _, _ => Except.error JSError.typeError

/-- The loop of `handleCategoryChange` from position `i` on, over the categories not yet
visited: the first position whose `text` is the label, if any. -/
def handleCategoryChange.loop (label : String) : List Category → Nat → Option Nat
  | [], _ => none
  | c :: rest, i => if c.text = label then some i else handleCategoryChange.loop label rest (i + 1)

/-- The handler of the category selector. -/
def handleCategoryChange (state : State) (event : SelectEvent) : Except JSError State :=
  match handleCategoryChange.loop event.text state.inputData 0 with
  | some i => Except.ok { state with selectedIndex := JSNumber.int (i : Int) }
  | none => Except.ok state

/-- The handler of the Cancel button: calls the callback from the props on the outside
world; the component state is not touched. -/
def closeWizard {W A : Type} (props : Props W A) (state : State) (world : W) : State × W :=
  let wizardToggleDisplay := props.wizardToggleDisplay
  (state, wizardToggleDisplay [] world)

/-- The `map` of `loadInputs` over the entries still to render; `key` is the counter
before the element is built. -/
def loadInputs.map (content : JSObject) : List (String × String) → Nat → List TextInput
  | [], _ => []
  | item :: rest, key =>
    { size := "large", name := item.1, key := key + 1, placeholder := item.1,
      value := content.get item.1 } :: loadInputs.map content rest (key + 1)

/-- The render helper: the inputs of the selected category. -/
def loadInputs (state : State) : Except JSError Rendered :=
  match arrayGet state.inputData state.selectedIndex with
  | none => Except.error JSError.typeError
  | some dataAsObject =>
    match dataAsObject.content with
    | Content.undefined => Except.ok (Rendered.text "")
    | Content.null => Except.ok (Rendered.text "")
    | Content.object content =>
      if content.entries.length = 0 then Except.ok (Rendered.text "")
      else
        let selectedData := content.entries
        Except.ok (Rendered.elements (loadInputs.map content selectedData 0))

/-- A mock callback in the manner of `jest.fn()`: the world is the record of the argument
lists it was called with. -/
def mockFn {A : Type} (args : List A) (calls : List (List A)) : List (List A) :=
  calls ++ [args]

/-- Run a handler `n` times in a row. -/
def iterate (f : State → Except JSError State) : Nat → State → Except JSError State
  | 0, s => Except.ok s
  | n + 1, s => f s >>= iterate f n

/-! ## Data of `WizardDialog.test.jsx` -/

/-- The `dummyData` of the test "should change value in component's state on keystroke". -/
def basicInfo : List Category :=
  [⟨"Basic info", Content.object ⟨[("testInput", "input")], by decide⟩, []⟩]

/-- The `dummyData` of the test "should change categories". -/
def twoCategories : List Category :=
  [⟨"Category #1", Content.object ⟨[("testInput", "test1")], by decide⟩, []⟩,
   ⟨"Category #2", Content.object ⟨[("testInput2", "test2")], by decide⟩, []⟩]

/-- The `dummyData` of the test "should create 4 inputs based on data". -/
def fourFields : List Category :=
  [⟨"Dummy Data",
    Content.object ⟨[("test", ""), ("test2", ""), ("test3", ""), ("test4", "")], by decide⟩, []⟩]

/-- The `dummyData` of the test "should create 0 inputs if content does not exist". -/
def noContent : List Category :=
  [⟨"Basic info", Content.undefined, []⟩]

/-- The invariant of `selectedIndex`: an integer with `0 <= selectedIndex < inputData.length`. -/
def State.Valid (s : State) : Prop :=
  match s.selectedIndex with
  | JSNumber.int i => 0 ≤ i ∧ i < (s.inputData.length : Int)
  | JSNumber.nan => False

instance (s : State) : Decidable s.Valid := by
  unfold State.Valid
  cases s.selectedIndex <;> infer_instance

/-! ## Navigation: `getPrev` and `getNext` -/

theorem getPrev_eq (inputData : List Category) (i : Int) (hne : inputData ≠ []) :
    getPrev ⟨JSNumber.int i, inputData⟩
      = Except.ok ⟨JSNumber.int (Int.tmod (i + inputData.length - 1) inputData.length),
          inputData⟩ := by
  have hlen : (inputData.length : Int) ≠ 0 := by
    have := List.length_pos.mpr hne
    omega
  simp [getPrev, arrayLength, JSNumber.add, JSNumber.sub, JSNumber.mod, hlen]

theorem getNext_eq (inputData : List Category) (i : Int) (hne : inputData ≠ []) :
    getNext ⟨JSNumber.int i, inputData⟩
      = Except.ok ⟨JSNumber.int (Int.tmod (i + 1) inputData.length), inputData⟩ := by
  have hlen : (inputData.length : Int) ≠ 0 := by
    have := List.length_pos.mpr hne
    omega
  simp [getNext, arrayLength, JSNumber.add, JSNumber.mod, hlen]

theorem ne_nil_of_index {α : Type} (xs : List α) (i : Int) (h0 : 0 ≤ i)
    (hlt : i < (xs.length : Int)) : xs ≠ [] := by
  intro h
  subst h
  simp at hlt
  omega

theorem getPrev_valid (inputData : List Category) (i : Int) (h0 : 0 ≤ i)
    (hlt : i < (inputData.length : Int)) :
    getPrev ⟨JSNumber.int i, inputData⟩
      = Except.ok ⟨JSNumber.int ((i - 1 + inputData.length) % inputData.length), inputData⟩ := by
  rw [getPrev_eq inputData i (ne_nil_of_index inputData i h0 hlt),
    Int.tmod_eq_emod (by omega) (by omega)]
  have : i + (inputData.length : Int) - 1 = i - 1 + inputData.length := by ring
  rw [this]

theorem getNext_valid (inputData : List Category) (i : Int) (h0 : 0 ≤ i)
    (hlt : i < (inputData.length : Int)) :
    getNext ⟨JSNumber.int i, inputData⟩
      = Except.ok ⟨JSNumber.int ((i + 1) % inputData.length), inputData⟩ := by
  rw [getNext_eq inputData i (ne_nil_of_index inputData i h0 hlt),
    Int.tmod_eq_emod (by omega) (by omega)]

theorem iterate_getNext (inputData : List Category) (k : Nat) :
    ∀ i : Int, 0 ≤ i → i < (inputData.length : Int) →
      iterate getNext k ⟨JSNumber.int i, inputData⟩
        = Except.ok ⟨JSNumber.int ((i + k) % inputData.length), inputData⟩ := by
  induction k with
  | zero =>
    intro i h0 hlt
    simp [iterate, Int.emod_eq_of_lt h0 hlt]
  | succ k ih =>
    intro i h0 hlt
    have hpos : (0 : Int) < inputData.length := by omega
    have hstep := ih ((i + 1) % inputData.length) (Int.emod_nonneg _ (by omega))
      (Int.emod_lt_of_pos _ hpos)
    simp only [iterate, getNext_valid inputData i h0 hlt]
    show iterate getNext k _ = _
    rw [hstep, Int.emod_add_emod]
    have : i + 1 + (k : Int) = i + ((k + 1 : Nat) : Int) := by push_cast; ring
    rw [this]

theorem iterate_getPrev (inputData : List Category) (k : Nat) :
    ∀ i : Int, 0 ≤ i → i < (inputData.length : Int) →
      iterate getPrev k ⟨JSNumber.int i, inputData⟩
        = Except.ok ⟨JSNumber.int ((i - k) % inputData.length), inputData⟩ := by
  induction k with
  | zero =>
    intro i h0 hlt
    simp [iterate, Int.emod_eq_of_lt h0 hlt]
  | succ k ih =>
    intro i h0 hlt
    have hpos : (0 : Int) < inputData.length := by omega
    have hstep := ih ((i - 1 + inputData.length) % inputData.length)
      (Int.emod_nonneg _ (by omega)) (Int.emod_lt_of_pos _ hpos)
    simp only [iterate, getPrev_valid inputData i h0 hlt]
    show iterate getPrev k _ = _
    rw [hstep, Int.sub_eq_add_neg, Int.emod_add_emod]
    have : i - 1 + (inputData.length : Int) + -(k : Int)
        = i - ((k + 1 : Nat) : Int) + 1 * (inputData.length : Int) := by push_cast; ring
    rw [this, Int.add_mul_emod_self]

/-! ## Property lookup after `{ ...o, [k]: v }` -/

theorem lookupEntry_replaceEntry_self (k v : String) (es : List (String × String))
    (h : (lookupEntry k es).isSome) : lookupEntry k (replaceEntry k v es) = some v := by
  induction es with
  | nil => simp [lookupEntry] at h
  | cons e es ih =>
    by_cases he : e.1 = k
    · simp [replaceEntry, lookupEntry, he]
    · simp only [lookupEntry, he, if_false] at h
      simp [replaceEntry, lookupEntry, he, ih h]

theorem lookupEntry_replaceEntry_other (k v k2 : String) (es : List (String × String))
    (hk : k2 ≠ k) : lookupEntry k2 (replaceEntry k v es) = lookupEntry k2 es := by
  induction es with
  | nil => rfl
  | cons e es ih =>
    by_cases he : e.1 = k
    · have h2 : ¬ e.1 = k2 := fun h => hk (h.symm.trans he)
      simp [replaceEntry, lookupEntry, he, ih, h2, hk.symm]
    · simp [replaceEntry, lookupEntry, he, ih]

theorem lookupEntry_insertIndexed_self (n : Nat) (k v : String) (es : List (String × String))
    (h : lookupEntry k es = none) : lookupEntry k (insertIndexed n k v es) = some v := by
  induction es with
  | nil => simp [insertIndexed, lookupEntry]
  | cons e es ih =>
    by_cases he : e.1 = k
    · simp [lookupEntry, he] at h
    · simp only [lookupEntry, he, if_false] at h
      simp only [insertIndexed]
      split
      · split
        · simp [lookupEntry, he, ih h]
        · simp [lookupEntry]
      · simp [lookupEntry]

theorem lookupEntry_insertIndexed_other (n : Nat) (k v k2 : String)
    (es : List (String × String)) (hk : k2 ≠ k) :
    lookupEntry k2 (insertIndexed n k v es) = lookupEntry k2 es := by
  induction es with
  | nil => simp [insertIndexed, lookupEntry, hk.symm]
  | cons e es ih =>
    simp only [insertIndexed]
    split
    · split
      · simp [lookupEntry, ih]
      · simp [lookupEntry, hk.symm]
    · simp [lookupEntry, hk.symm]

theorem lookupEntry_append_self (k v : String) (es : List (String × String))
    (h : lookupEntry k es = none) : lookupEntry k (es ++ [(k, v)]) = some v := by
  induction es with
  | nil => simp [lookupEntry]
  | cons e es ih =>
    by_cases he : e.1 = k
    · simp [lookupEntry, he] at h
    · simp only [lookupEntry, he, if_false] at h
      simp [lookupEntry, he, ih h]

theorem lookupEntry_append_other (k v k2 : String) (es : List (String × String))
    (hk : k2 ≠ k) : lookupEntry k2 (es ++ [(k, v)]) = lookupEntry k2 es := by
  induction es with
  | nil => simp [lookupEntry, hk.symm]
  | cons e es ih => simp [lookupEntry, ih]

theorem lookupEntry_of_mem (es : List (String × String)) (h : (es.map Prod.fst).Nodup)
    (e : String × String) (he : e ∈ es) : lookupEntry e.1 es = some e.2 := by
  induction es with
  | nil => simp at he
  | cons x xs ih =>
    simp only [List.map_cons, List.nodup_cons] at h
    rcases List.mem_cons.mp he with rfl | hmem
    · simp [lookupEntry]
    · have hne : ¬ x.1 = e.1 := by
        intro hx
        apply h.1
        rw [hx]
        exact List.mem_map_of_mem Prod.fst hmem
      simp [lookupEntry, hne, ih h.2 hmem]

theorem JSObject.get_set_self (o : JSObject) (k v : String) : (o.set k v).get k = some v := by
  simp only [JSObject.get, JSObject.set, defineEntry]
  split
  · rename_i h
    exact lookupEntry_replaceEntry_self k v _ h
  · rename_i h
    have h2 : lookupEntry k o.entries = none := by
      cases hl : lookupEntry k o.entries with
      | none => rfl
      | some x => simp [hl] at h
    split
    · exact lookupEntry_insertIndexed_self _ k v _ h2
    · exact lookupEntry_append_self k v _ h2

theorem JSObject.get_set_other (o : JSObject) (k v k2 : String) (hk : k2 ≠ k) :
    (o.set k v).get k2 = o.get k2 := by
  simp only [JSObject.get, JSObject.set, defineEntry]
  split
  · exact lookupEntry_replaceEntry_other k v k2 _ hk
  · split
    · exact lookupEntry_insertIndexed_other _ k v k2 _ hk
    · exact lookupEntry_append_other k v k2 _ hk

theorem JSObject.keys_set_of_mem (o : JSObject) (k v : String) (h : k ∈ o.keys) :
    (o.set k v).keys = o.keys := by
  have h2 : (lookupEntry k o.entries).isSome := by
    cases hl : lookupEntry k o.entries with
    | none => exact absurd h ((lookupEntry_eq_none_iff k o.entries).mp hl)
    | some x => rfl
  simp only [JSObject.keys, JSObject.set, defineEntry, h2, if_true]
  exact keys_replaceEntry k v o.entries

theorem JSObject.keys_set_of_not_mem (o : JSObject) (k v : String) (h : k ∉ o.keys) :
    ((o.set k v).keys).Perm (k :: o.keys) := by
  have h2 : lookupEntry k o.entries = none := (lookupEntry_eq_none_iff k o.entries).mpr h
  simp only [JSObject.keys, JSObject.set, defineEntry, h2]
  simp only [Option.isSome_none, Bool.false_eq_true, if_false]
  split
  · exact keys_insertIndexed _ k v o.entries
  · rw [List.map_append, List.map_singleton]
    exact List.perm_append_singleton _ _

/-! ## `handleInputChange` -/

theorem handleInputChange_valid (inputData : List Category) (i : Int) (cat : Category)
    (event : InputEvent) (h0 : 0 ≤ i) (hget : inputData[i.toNat]? = some cat) :
    handleInputChange ⟨JSNumber.int i, inputData⟩ event
      = Except.ok ⟨JSNumber.int i, inputData.set i.toNat
          { cat with
            content := Content.object (cat.content.spread.set event.target.name
              event.target.value) }⟩ := by
  simp [handleInputChange, arrayGet, h0, hget]

theorem handleInputChange_invalid (inputData : List Category) (n : JSNumber)
    (event : InputEvent) (h : arrayGet inputData n = none) :
    handleInputChange ⟨n, inputData⟩ event = Except.error JSError.typeError := by
  simp [handleInputChange, h]

/-! ## `handleCategoryChange` -/

theorem loop_eq_some (label : String) (cs : List Category) :
    ∀ (k n : Nat) (c : Category), cs[k]? = some c → c.text = label →
      (∀ j d, j < k → cs[j]? = some d → d.text ≠ label) →
      handleCategoryChange.loop label cs n = some (n + k) := by
  induction cs with
  | nil => intro k n c h; simp at h
  | cons x xs ih =>
    intro k n c hk hc hfirst
    cases k with
    | zero =>
      simp only [List.getElem?_cons_zero, Option.some.injEq] at hk
      subst hk
      simp [handleCategoryChange.loop, hc]
    | succ k =>
      have hx : x.text ≠ label := hfirst 0 x (Nat.succ_pos k) (by simp)
      simp only [List.getElem?_cons_succ] at hk
      have := ih k (n + 1) c hk hc (fun j d hj hd => hfirst (j + 1) d (by omega) (by simpa using hd))
      simp only [handleCategoryChange.loop, hx, if_false, this]
      congr 1
      omega

theorem loop_eq_none (label : String) (cs : List Category) (n : Nat)
    (h : ∀ c ∈ cs, c.text ≠ label) : handleCategoryChange.loop label cs n = none := by
  induction cs generalizing n with
  | nil => rfl
  | cons x xs ih =>
    have hx : x.text ≠ label := h x (List.mem_cons_self _ _)
    simp only [handleCategoryChange.loop, hx, if_false]
    exact ih (n + 1) (fun c hc => h c (List.mem_cons_of_mem _ hc))

theorem loop_lt (label : String) (cs : List Category) :
    ∀ (n r : Nat), handleCategoryChange.loop label cs n = some r → n ≤ r ∧ r < n + cs.length := by
  induction cs with
  | nil => intro n r h; simp [handleCategoryChange.loop] at h
  | cons x xs ih =>
    intro n r h
    simp only [handleCategoryChange.loop] at h
    split at h
    · simp only [Option.some.injEq] at h
      simp only [List.length_cons]
      omega
    · have := ih (n + 1) r h
      simp only [List.length_cons]
      omega

/-! ## `loadInputs` -/

theorem loadInputs_map_spec (content : JSObject) (rest : List (String × String)) :
    ∀ key : Nat,
      (loadInputs.map content rest key).map (fun t => (t.name, t.value))
        = rest.map (fun e => (e.1, content.get e.1)) := by
  induction rest with
  | nil => intro key; rfl
  | cons e es ih => intro key; simp [loadInputs.map, ih]

theorem loadInputs_map_length (content : JSObject) (rest : List (String × String)) :
    ∀ key : Nat, (loadInputs.map content rest key).length = rest.length := by
  induction rest with
  | nil => intro key; rfl
  | cons e es ih => intro key; simp [loadInputs.map, ih]

/-! ## The claims: navigation -/

/-- C1: from a state with non-empty `inputData` and `0 <= selectedIndex < inputData.length`,
each of `getPrev`, `getNext`, `handleCategoryChange` (any label) and `handleInputChange`
(any field name and value) completes and gives a state that satisfies the same bounds; the
state set by the constructor satisfies them whenever `inputData` is non-empty. -/
theorem selectedIndex_invariant (s : State) (hs : s.Valid) (select : SelectEvent)
    (input : InputEvent) :
    (∃ t, getPrev s = Except.ok t ∧ t.Valid) ∧
    (∃ t, getNext s = Except.ok t ∧ t.Valid) ∧
    (∃ t, handleCategoryChange s select = Except.ok t ∧ t.Valid) ∧
    (∃ t, handleInputChange s input = Except.ok t ∧ t.Valid) ∧
    (∀ (W A : Type) (props : Props W A), props.inputData ≠ [] → (constructor props).Valid) := by
  obtain ⟨n, data⟩ := s
  cases n with
  | nan => exact absurd hs (by simp [State.Valid])
  | int i =>
    have hb : 0 ≤ i ∧ i < (data.length : Int) := by simpa [State.Valid] using hs
    obtain ⟨h0, hlt⟩ := hb
    have hpos : (0 : Int) < data.length := by omega
    refine ⟨?_, ?_, ?_, ?_, ?_⟩
    · refine ⟨_, getPrev_valid data i h0 hlt, ?_⟩
      simp only [State.Valid]
      exact ⟨Int.emod_nonneg _ (by omega), Int.emod_lt_of_pos _ hpos⟩
    · refine ⟨_, getNext_valid data i h0 hlt, ?_⟩
      simp only [State.Valid]
      exact ⟨Int.emod_nonneg _ (by omega), Int.emod_lt_of_pos _ hpos⟩
    · cases hl : handleCategoryChange.loop select.text data 0 with
      | none =>
        refine ⟨⟨JSNumber.int i, data⟩, by simp [handleCategoryChange, hl], ?_⟩
        simp only [State.Valid]
        exact ⟨h0, hlt⟩
      | some r =>
        refine ⟨⟨JSNumber.int (r : Int), data⟩, by simp [handleCategoryChange, hl], ?_⟩
        have := loop_lt select.text data 0 r hl
        simp only [State.Valid]
        omega
    · have hi : i.toNat < data.length := by omega
      refine ⟨_, handleInputChange_valid data i data[i.toNat] input h0
        (List.getElem?_eq_getElem hi), ?_⟩
      simp only [State.Valid, List.length_set]
      exact ⟨h0, hlt⟩
    · intro W A props hne
      have := List.length_pos.mpr hne
      simp only [State.Valid, constructor]
      omega

/-- C2: for non-empty `inputData` of length `len` and `0 <= i < len`, `getPrev` sets
`selectedIndex` to `(i - 1 + len) mod len` and `getNext` sets it to `(i + 1) mod len`, both
leaving `inputData` as it is; from index `0` `getPrev` gives `len - 1`, and from index
`len - 1` `getNext` gives `0`. -/
theorem getPrev_getNext_modular (inputData : List Category) (i : Int) (h0 : 0 ≤ i)
    (hlt : i < (inputData.length : Int)) :
    getPrev ⟨JSNumber.int i, inputData⟩
      = Except.ok ⟨JSNumber.int ((i - 1 + inputData.length) % inputData.length), inputData⟩ ∧
    getNext ⟨JSNumber.int i, inputData⟩
      = Except.ok ⟨JSNumber.int ((i + 1) % inputData.length), inputData⟩ ∧
    getPrev ⟨JSNumber.int 0, inputData⟩
      = Except.ok ⟨JSNumber.int ((inputData.length : Int) - 1), inputData⟩ ∧
    getNext ⟨JSNumber.int ((inputData.length : Int) - 1), inputData⟩
      = Except.ok ⟨JSNumber.int 0, inputData⟩ := by
  have hpos : (0 : Int) < inputData.length := by omega
  refine ⟨getPrev_valid inputData i h0 hlt, getNext_valid inputData i h0 hlt, ?_, ?_⟩
  · rw [getPrev_valid inputData 0 (le_refl 0) hpos]
    have : (0 : Int) - 1 + inputData.length = inputData.length - 1 := by ring
    rw [this, Int.emod_eq_of_lt (by omega) (by omega)]
  · rw [getNext_valid inputData _ (by omega) (by omega)]
    simp

/-- C3: for non-empty `inputData` of length `n` and `0 <= i < n`, `n` calls of `getNext` in
a row come back to `selectedIndex = i`, and so do `n` calls of `getPrev`. -/
theorem navigation_full_cycle (inputData : List Category) (i : Int) (h0 : 0 ≤ i)
    (hlt : i < (inputData.length : Int)) :
    iterate getNext inputData.length ⟨JSNumber.int i, inputData⟩
      = Except.ok ⟨JSNumber.int i, inputData⟩ ∧
    iterate getPrev inputData.length ⟨JSNumber.int i, inputData⟩
      = Except.ok ⟨JSNumber.int i, inputData⟩ := by
  constructor
  · rw [iterate_getNext inputData inputData.length i h0 hlt, Int.add_emod_self,
      Int.emod_eq_of_lt h0 hlt]
  · rw [iterate_getPrev inputData inputData.length i h0 hlt]
    have : i - (inputData.length : Int) = i + (-1) * (inputData.length : Int) := by ring
    rw [this, Int.add_mul_emod_self, Int.emod_eq_of_lt h0 hlt]

/-- C4: for non-empty `inputData` and `0 <= i < inputData.length`, `getPrev` followed by
`getNext` restores the state with `selectedIndex = i`, and so does `getNext` followed by
`getPrev`. -/
theorem getPrev_getNext_inverse (inputData : List Category) (i : Int) (h0 : 0 ≤ i)
    (hlt : i < (inputData.length : Int)) :
    (getPrev ⟨JSNumber.int i, inputData⟩ >>= getNext)
      = Except.ok ⟨JSNumber.int i, inputData⟩ ∧
    (getNext ⟨JSNumber.int i, inputData⟩ >>= getPrev)
      = Except.ok ⟨JSNumber.int i, inputData⟩ := by
  have hpos : (0 : Int) < inputData.length := by omega
  constructor
  · rw [getPrev_valid inputData i h0 hlt]
    show getNext _ = _
    rw [getNext_valid inputData _ (Int.emod_nonneg _ (by omega)) (Int.emod_lt_of_pos _ hpos),
      Int.emod_add_emod]
    have : i - 1 + (inputData.length : Int) + 1 = i + inputData.length := by ring
    rw [this, Int.add_emod_self, Int.emod_eq_of_lt h0 hlt]
  · rw [getNext_valid inputData i h0 hlt]
    show getPrev _ = _
    rw [getPrev_valid inputData _ (Int.emod_nonneg _ (by omega)) (Int.emod_lt_of_pos _ hpos)]
    have : (i + 1) % (inputData.length : Int) - 1 + inputData.length
        = (i + 1) % (inputData.length : Int) + (inputData.length - 1) := by ring
    rw [this, Int.emod_add_emod]
    have : i + 1 + ((inputData.length : Int) - 1) = i + inputData.length := by ring
    rw [this, Int.add_emod_self, Int.emod_eq_of_lt h0 hlt]

/-! ## The claims: selection, editing, rendering, closing -/

/-- C5: `handleCategoryChange` always completes and leaves `inputData` as it is; when the
label is the `text` of the category at position `k` and of no category before it,
`selectedIndex` becomes `k`, whatever it was; when no category has that `text`, the state is
unchanged. -/
theorem handleCategoryChange_first_match (s : State) (label : String) :
    ∃ t, handleCategoryChange s ⟨label⟩ = Except.ok t ∧ t.inputData = s.inputData ∧
      (∀ (k : Nat) (c : Category), s.inputData[k]? = some c → c.text = label →
        (∀ j d, j < k → s.inputData[j]? = some d → d.text ≠ label) →
        t.selectedIndex = JSNumber.int (k : Int)) ∧
      ((∀ c ∈ s.inputData, c.text ≠ label) → t = s) := by
  cases hl : handleCategoryChange.loop label s.inputData 0 with
  | none =>
    refine ⟨s, by simp [handleCategoryChange, hl], rfl, ?_, fun _ => rfl⟩
    intro k c hk hc hfirst
    have := loop_eq_some label s.inputData k 0 c hk hc hfirst
    rw [hl] at this
    exact absurd this (by simp)
  | some r =>
    refine ⟨{ s with selectedIndex := JSNumber.int (r : Int) },
      by simp [handleCategoryChange, hl], rfl, ?_, ?_⟩
    · intro k c hk hc hfirst
      have := loop_eq_some label s.inputData k 0 c hk hc hfirst
      rw [hl] at this
      simp only [Option.some.injEq] at this
      simp [this]
    · intro hnone
      have := loop_eq_none label s.inputData 0 hnone
      rw [hl] at this
      exact absurd this (by simp)

/-- C6: with `0 <= i < inputData.length` and `fieldName` a key of the content of the
category at `i`, `handleInputChange` completes; afterwards that content maps `fieldName` to
the new value and every other key to its old value (the keys and their order are kept), the
category keeps its `text` and its other properties, every category at another position is
unchanged, the list keeps its length, and `selectedIndex` is unchanged. -/
theorem handleInputChange_existing_key (inputData : List Category) (i : Int) (cat : Category)
    (o : JSObject) (fieldName newValue : String) (h0 : 0 ≤ i)
    (hget : inputData[i.toNat]? = some cat) (hcontent : cat.content = Content.object o)
    (hkey : fieldName ∈ o.keys) :
    ∃ (t : State) (cat2 : Category) (o2 : JSObject),
      handleInputChange ⟨JSNumber.int i, inputData⟩ ⟨⟨fieldName, newValue⟩⟩ = Except.ok t ∧
      t.selectedIndex = JSNumber.int i ∧
      t.inputData.length = inputData.length ∧
      (∀ j : Nat, j ≠ i.toNat → t.inputData[j]? = inputData[j]?) ∧
      t.inputData[i.toNat]? = some cat2 ∧
      cat2.text = cat.text ∧ cat2.other = cat.other ∧
      cat2.content = Content.object o2 ∧
      o2.get fieldName = some newValue ∧
      (∀ k : String, k ≠ fieldName → o2.get k = o.get k) ∧
      o2.keys = o.keys := by
  have hi : i.toNat < inputData.length := by
    rcases Nat.lt_or_ge i.toNat inputData.length with h | h
    · exact h
    · rw [List.getElem?_eq_none h] at hget
      exact absurd hget (by simp)
  refine ⟨_, { cat with content := Content.object (cat.content.spread.set fieldName newValue) },
    cat.content.spread.set fieldName newValue,
    handleInputChange_valid inputData i cat ⟨⟨fieldName, newValue⟩⟩ h0 hget,
    rfl, by simp, ?_, ?_, rfl, rfl, rfl, ?_, ?_, ?_⟩
  · intro j hj
    simp [List.getElem?_set, Ne.symm hj]
  · simp [List.getElem?_set, hi]
  · rw [hcontent]
    exact JSObject.get_set_self o fieldName newValue
  · intro k hk
    rw [hcontent]
    exact JSObject.get_set_other o fieldName newValue k hk
  · rw [hcontent]
    exact JSObject.keys_set_of_mem o fieldName newValue hkey

/-- C7: with `0 <= i < inputData.length`, `loadInputs` completes.  When the content of the
category at `i` is an object, the inputs are one per entry of the content, in the order of
its entries, each with `name` the key and `value` the content's value at that key, so their
number is the number of keys; when the content is missing, `null` or the empty object, the
result is the empty string and holds no input. -/
theorem loadInputs_one_input_per_key (inputData : List Category) (i : Int) (cat : Category)
    (h0 : 0 ≤ i) (hget : inputData[i.toNat]? = some cat) :
    ∃ r : Rendered, loadInputs ⟨JSNumber.int i, inputData⟩ = Except.ok r ∧
      (∀ o : JSObject, cat.content = Content.object o →
        r.inputs.map (fun t => (t.name, t.value)) = o.entries.map (fun e => (e.1, some e.2)) ∧
        r.inputs.map (fun t => t.name) = o.keys ∧
        (∀ t ∈ r.inputs, t.value = o.get t.name) ∧
        r.inputs.length = o.keys.length) ∧
      (cat.content = Content.undefined ∨ cat.content = Content.null ∨
          cat.content = Content.object JSObject.empty →
        r = Rendered.text "" ∧ r.inputs = []) := by
  have hsel : arrayGet inputData (JSNumber.int i) = some cat := by simp [arrayGet, h0, hget]
  cases hc : cat.content with
  | undefined =>
    refine ⟨Rendered.text "", by simp [loadInputs, hsel, hc], ?_, fun _ => ⟨rfl, rfl⟩⟩
    intro o ho
    exact absurd ho (by simp)
  | null =>
    refine ⟨Rendered.text "", by simp [loadInputs, hsel, hc], ?_, fun _ => ⟨rfl, rfl⟩⟩
    intro o ho
    exact absurd ho (by simp)
  | object content =>
    have hval : content.entries.map (fun e => (e.1, content.get e.1))
        = content.entries.map (fun e => (e.1, some e.2)) := by
      apply List.map_congr_left
      intro e he
      simp only [JSObject.get]
      rw [lookupEntry_of_mem content.entries content.nodup e he]
    by_cases hlen : content.entries.length = 0
    · have hnil : content.entries = [] := List.length_eq_zero.mp hlen
      refine ⟨Rendered.text "", by simp [loadInputs, hsel, hc, hnil], ?_, fun _ => ⟨rfl, rfl⟩⟩
      intro o ho
      simp only [Content.object.injEq] at ho
      subst ho
      simp [Rendered.inputs, JSObject.keys, hnil]
    · refine ⟨Rendered.elements (loadInputs.map content content.entries 0),
        by simp [loadInputs, hsel, hc, hlen], ?_, ?_⟩
      · intro o ho
        simp only [Content.object.injEq] at ho
        subst ho
        have hspec := loadInputs_map_spec content content.entries 0
        refine ⟨by simpa [Rendered.inputs, hval] using hspec, ?_, ?_, ?_⟩
        · have := congrArg (List.map Prod.fst) hspec
          simpa [Rendered.inputs, JSObject.keys, List.map_map, Function.comp_def] using this
        · intro t ht
          have hmem : (t.name, t.value) ∈
              (loadInputs.map content content.entries 0).map (fun t => (t.name, t.value)) :=
            List.mem_map_of_mem (fun t => (t.name, t.value)) ht
          rw [hspec] at hmem
          obtain ⟨e, _, he⟩ := List.mem_map.mp hmem
          simp only [Prod.mk.injEq] at he
          rw [← he.1, ← he.2]
        · simp [Rendered.inputs, JSObject.keys, loadInputs_map_length]
      · intro h
        rcases h with h | h | h
        · exact absurd h (by simp)
        · exact absurd h (by simp)
        · simp only [Content.object.injEq] at h
          subst h
          exact absurd rfl hlen

/-- C8: with `0 <= i < inputData.length` and `fieldName` not a key of the content of the
category at `i` (a missing or `null` content has no key), `handleInputChange` completes;
afterwards that content is an object that maps `fieldName` to the new value; when the old
content was an object, every other key has the value it had there and the keys are the old
keys and `fieldName`; when the old content was missing or `null`, `fieldName` is the only
key; the category keeps its `text` and its other properties, every category at another
position is unchanged, the list keeps its length, and `selectedIndex` is unchanged. -/
theorem handleInputChange_new_key (inputData : List Category) (i : Int) (cat : Category)
    (fieldName newValue : String) (h0 : 0 ≤ i) (hget : inputData[i.toNat]? = some cat)
    (hkey : ∀ o : JSObject, cat.content = Content.object o → fieldName ∉ o.keys) :
    ∃ (t : State) (cat2 : Category) (o2 : JSObject),
      handleInputChange ⟨JSNumber.int i, inputData⟩ ⟨⟨fieldName, newValue⟩⟩ = Except.ok t ∧
      t.selectedIndex = JSNumber.int i ∧
      t.inputData.length = inputData.length ∧
      (∀ j : Nat, j ≠ i.toNat → t.inputData[j]? = inputData[j]?) ∧
      t.inputData[i.toNat]? = some cat2 ∧
      cat2.text = cat.text ∧ cat2.other = cat.other ∧
      cat2.content = Content.object o2 ∧
      o2.get fieldName = some newValue ∧
      (∀ o : JSObject, cat.content = Content.object o →
        (∀ k : String, k ≠ fieldName → o2.get k = o.get k) ∧
        (∀ k ∈ o.keys, o2.get k = o.get k) ∧
        o2.keys.Perm (fieldName :: o.keys)) ∧
      (cat.content = Content.undefined ∨ cat.content = Content.null →
        o2.entries = [(fieldName, newValue)]) := by
  have hi : i.toNat < inputData.length := by
    rcases Nat.lt_or_ge i.toNat inputData.length with h | h
    · exact h
    · rw [List.getElem?_eq_none h] at hget
      exact absurd hget (by simp)
  have hempty : (JSObject.empty.set fieldName newValue).entries = [(fieldName, newValue)] := by
    simp only [JSObject.set, JSObject.empty, defineEntry, lookupEntry]
    simp only [Option.isSome_none, Bool.false_eq_true, if_false]
    split
    · rfl
    · rfl
  refine ⟨_, { cat with content := Content.object (cat.content.spread.set fieldName newValue) },
    cat.content.spread.set fieldName newValue,
    handleInputChange_valid inputData i cat ⟨⟨fieldName, newValue⟩⟩ h0 hget,
    rfl, by simp, ?_, ?_, rfl, rfl, rfl, ?_, ?_, ?_⟩
  · intro j hj
    simp [List.getElem?_set, Ne.symm hj]
  · simp [List.getElem?_set, hi]
  · exact JSObject.get_set_self _ fieldName newValue
  · intro o ho
    have hnot : fieldName ∉ o.keys := hkey o ho
    rw [ho]
    refine ⟨fun k hk => JSObject.get_set_other o fieldName newValue k hk, ?_,
      JSObject.keys_set_of_not_mem o fieldName newValue hnot⟩
    intro k hk
    have hne : k ≠ fieldName := fun h => hnot (h ▸ hk)
    exact JSObject.get_set_other o fieldName newValue k hne
  · intro h
    rcases h with h | h
    · rw [h]
      exact hempty
    · rw [h]
      exact hempty

/-- C9 as stated fails: on empty `inputData`, `getPrev` and `getNext` set `selectedIndex` to
`NaN`, which is no integer, and `handleInputChange` throws a `TypeError`; `handleInputChange`
also throws when `selectedIndex` is past the end of a non-empty `inputData`. -/
theorem transitions_fail_on_empty :
    getPrev ⟨JSNumber.int 0, []⟩ = Except.ok ⟨JSNumber.nan, []⟩ ∧
    getNext ⟨JSNumber.int 0, []⟩ = Except.ok ⟨JSNumber.nan, []⟩ ∧
    JSNumber.nan.isInteger = false ∧
    handleInputChange ⟨JSNumber.int 0, []⟩ ⟨⟨"testInput", "test"⟩⟩
      = Except.error JSError.typeError ∧
    handleInputChange ⟨JSNumber.int 1, basicInfo⟩ ⟨⟨"testInput", "test"⟩⟩
      = Except.error JSError.typeError := by
  decide

/-- C9 amended: `getPrev` and `getNext` complete with an integer `selectedIndex` on every
state with non-empty `inputData` and an integer `selectedIndex`; `handleCategoryChange` does
so on every state with an integer `selectedIndex`, empty `inputData` included;
`handleInputChange` does so on every state with `0 <= selectedIndex < inputData.length`. -/
theorem transitions_total_on_valid :
    (∀ (inputData : List Category) (i : Int), inputData ≠ [] →
      (∃ j : Int, getPrev ⟨JSNumber.int i, inputData⟩
          = Except.ok ⟨JSNumber.int j, inputData⟩) ∧
      (∃ j : Int, getNext ⟨JSNumber.int i, inputData⟩
          = Except.ok ⟨JSNumber.int j, inputData⟩)) ∧
    (∀ (s : State) (event : SelectEvent), s.selectedIndex.isInteger = true →
      ∃ t, handleCategoryChange s event = Except.ok t ∧ t.selectedIndex.isInteger = true) ∧
    (∀ (s : State) (event : InputEvent), s.Valid →
      ∃ t, handleInputChange s event = Except.ok t ∧ t.selectedIndex.isInteger = true) := by
  refine ⟨?_, ?_, ?_⟩
  · intro inputData i hne
    exact ⟨⟨_, getPrev_eq inputData i hne⟩, ⟨_, getNext_eq inputData i hne⟩⟩
  · intro s event hs
    cases hl : handleCategoryChange.loop event.text s.inputData 0 with
    | none => exact ⟨s, by simp [handleCategoryChange, hl], hs⟩
    | some r =>
      exact ⟨{ s with selectedIndex := JSNumber.int (r : Int) },
        by simp [handleCategoryChange, hl], rfl⟩
  · intro s event hs
    obtain ⟨n, data⟩ := s
    cases n with
    | nan => exact absurd hs (by simp [State.Valid])
    | int i =>
      have hb : 0 ≤ i ∧ i < (data.length : Int) := by simpa [State.Valid] using hs
      have hi : i.toNat < data.length := by omega
      exact ⟨_, handleInputChange_valid data i data[i.toNat] event hb.1
        (List.getElem?_eq_getElem hi), rfl⟩

/-- C10: `closeWizard` returns the component state as it was and the outside world after one
call of the `wizardToggleDisplay` callback with the empty argument list; with a recording
mock as callback, exactly one call, with no arguments, is added to the record. -/
theorem closeWizard_calls_toggle_once :
    (∀ (W A : Type) (props : Props W A) (state : State) (world : W),
      closeWizard props state world = (state, props.wizardToggleDisplay [] world)) ∧
    (∀ (A : Type) (isOpen : Bool) (inputData : List Category) (state : State)
        (calls : List (List A)),
      closeWizard ⟨isOpen, inputData, mockFn⟩ state calls = (state, calls ++ [[]])) := by
  exact ⟨fun _ _ _ _ _ => rfl, fun _ _ _ _ _ => rfl⟩

/-! ## The claims at concrete inputs -/

theorem selectedIndex_invariant_witness :
    State.Valid ⟨JSNumber.int 0, twoCategories⟩ ∧
    (∃ t, getPrev ⟨JSNumber.int 0, twoCategories⟩ = Except.ok t ∧ t.Valid) ∧
    (∃ t, handleInputChange ⟨JSNumber.int 0, twoCategories⟩ ⟨⟨"testInput", "x"⟩⟩ = Except.ok t ∧
      t.Valid) :=
  ⟨by decide,
    (selectedIndex_invariant ⟨JSNumber.int 0, twoCategories⟩ (by decide) ⟨"Category #2"⟩
      ⟨⟨"testInput", "x"⟩⟩).1,
    (selectedIndex_invariant ⟨JSNumber.int 0, twoCategories⟩ (by decide) ⟨"Category #2"⟩
      ⟨⟨"testInput", "x"⟩⟩).2.2.2.1⟩

theorem getPrev_getNext_modular_witness :
    (0 : Int) ≤ 0 ∧ (0 : Int) < (twoCategories.length : Int) ∧
    getPrev ⟨JSNumber.int 0, twoCategories⟩
      = Except.ok ⟨JSNumber.int ((0 - 1 + twoCategories.length) % twoCategories.length),
          twoCategories⟩ :=
  ⟨by decide, by decide, (getPrev_getNext_modular twoCategories 0 (by decide) (by decide)).1⟩

theorem navigation_full_cycle_witness :
    (0 : Int) ≤ 1 ∧ (1 : Int) < (twoCategories.length : Int) ∧
    iterate getPrev twoCategories.length ⟨JSNumber.int 1, twoCategories⟩
      = Except.ok ⟨JSNumber.int 1, twoCategories⟩ :=
  ⟨by decide, by decide, (navigation_full_cycle twoCategories 1 (by decide) (by decide)).2⟩

theorem getPrev_getNext_inverse_witness :
    (0 : Int) ≤ 0 ∧ (0 : Int) < (twoCategories.length : Int) ∧
    (getPrev ⟨JSNumber.int 0, twoCategories⟩ >>= getNext)
      = Except.ok ⟨JSNumber.int 0, twoCategories⟩ :=
  ⟨by decide, by decide, (getPrev_getNext_inverse twoCategories 0 (by decide) (by decide)).1⟩

theorem handleCategoryChange_first_match_witness :
    (∃ t, handleCategoryChange ⟨JSNumber.int 0, twoCategories⟩ ⟨"Category #2"⟩ = Except.ok t ∧
      t.inputData = twoCategories ∧ t.selectedIndex = JSNumber.int 1) ∧
    (∀ c ∈ twoCategories, c.text ≠ "Category #3") ∧
    (∃ t, handleCategoryChange ⟨JSNumber.int 1, twoCategories⟩ ⟨"Category #3"⟩ = Except.ok t ∧
      t = ⟨JSNumber.int 1, twoCategories⟩) := by
  refine ⟨?_, by decide, ?_⟩
  · obtain ⟨t, h1, h2, h3, _⟩ :=
      handleCategoryChange_first_match ⟨JSNumber.int 0, twoCategories⟩ "Category #2"
    refine ⟨t, h1, h2, h3 1 _ rfl rfl ?_⟩
    intro j d hj hd
    have hj0 : j = 0 := by omega
    subst hj0
    simp only [twoCategories, List.getElem?_cons_zero, Option.some.injEq] at hd
    subst hd
    decide
  · obtain ⟨t, h1, _, _, h4⟩ :=
      handleCategoryChange_first_match ⟨JSNumber.int 1, twoCategories⟩ "Category #3"
    exact ⟨t, h1, h4 (by decide)⟩

theorem handleInputChange_existing_key_witness :
    (0 : Int) ≤ 0 ∧ "testInput" ∈ JSObject.keys ⟨[("testInput", "input")], by decide⟩ ∧
    ∃ (t : State) (cat2 : Category) (o2 : JSObject),
      handleInputChange ⟨JSNumber.int 0, basicInfo⟩ ⟨⟨"testInput", "test"⟩⟩ = Except.ok t ∧
      t.inputData[0]? = some cat2 ∧ cat2.content = Content.object o2 ∧
      o2.get "testInput" = some "test" := by
  obtain ⟨t, cat2, o2, h1, _, _, _, h5, _, _, h8, h9, _⟩ :=
    handleInputChange_existing_key basicInfo 0 _ ⟨[("testInput", "input")], by decide⟩
      "testInput" "test" (by decide) rfl rfl (by decide)
  exact ⟨by decide, by decide, t, cat2, o2, h1, h5, h8, h9⟩

theorem loadInputs_one_input_per_key_witness :
    (0 : Int) ≤ 0 ∧
    (∃ r : Rendered, loadInputs ⟨JSNumber.int 0, fourFields⟩ = Except.ok r ∧
      r.inputs.map (fun t => t.name) = ["test", "test2", "test3", "test4"] ∧
      r.inputs.length = 4) ∧
    (∃ r : Rendered, loadInputs ⟨JSNumber.int 0, noContent⟩ = Except.ok r ∧ r.inputs = []) := by
  refine ⟨by decide, ?_, ?_⟩
  · obtain ⟨r, h1, h2, _⟩ := loadInputs_one_input_per_key fourFields 0 _ (by decide) rfl
    obtain ⟨_, h3, _, h4⟩ := h2 _ rfl
    exact ⟨r, h1, h3, h4⟩
  · obtain ⟨r, h1, _, h2⟩ := loadInputs_one_input_per_key noContent 0 _ (by decide) rfl
    exact ⟨r, h1, (h2 (Or.inl rfl)).2⟩

theorem handleInputChange_new_key_witness :
    (0 : Int) ≤ 0 ∧
    (∀ o : JSObject,
      Content.object ⟨[("test", ""), ("test2", ""), ("test3", ""), ("test4", "")], by decide⟩
        = Content.object o → "basePath" ∉ o.keys) ∧
    (∃ (t : State) (cat2 : Category) (o2 : JSObject),
      handleInputChange ⟨JSNumber.int 0, fourFields⟩ ⟨⟨"basePath", "/api"⟩⟩ = Except.ok t ∧
      t.inputData[0]? = some cat2 ∧ cat2.content = Content.object o2 ∧
      o2.get "basePath" = some "/api" ∧
      o2.get "test" = some "" ∧ o2.get "test2" = some "" ∧ o2.get "test3" = some "" ∧
      o2.get "test4" = some "" ∧
      o2.keys.Perm ["basePath", "test", "test2", "test3", "test4"]) ∧
    (∃ (t : State) (cat2 : Category) (o2 : JSObject),
      handleInputChange ⟨JSNumber.int 1, twoCategories⟩ ⟨⟨"basePath", "/api"⟩⟩ = Except.ok t ∧
      t.inputData[0]? = twoCategories[0]? ∧
      t.inputData[1]? = some cat2 ∧ cat2.content = Content.object o2 ∧
      o2.get "basePath" = some "/api" ∧ o2.get "testInput2" = some "test2") ∧
    (∃ (t : State) (cat2 : Category) (o2 : JSObject),
      handleInputChange ⟨JSNumber.int 0, noContent⟩ ⟨⟨"basePath", "/api"⟩⟩ = Except.ok t ∧
      t.inputData[0]? = some cat2 ∧ cat2.content = Content.object o2 ∧
      o2.entries = [("basePath", "/api")]) := by
  have hfour : ∀ o : JSObject,
      Content.object ⟨[("test", ""), ("test2", ""), ("test3", ""), ("test4", "")], by decide⟩
        = Content.object o → "basePath" ∉ o.keys := by
    intro o ho
    simp only [Content.object.injEq] at ho
    subst ho
    decide
  have htwo : ∀ o : JSObject,
      Content.object ⟨[("testInput2", "test2")], by decide⟩ = Content.object o →
        "basePath" ∉ o.keys := by
    intro o ho
    simp only [Content.object.injEq] at ho
    subst ho
    decide
  refine ⟨by decide, hfour, ?_, ?_, ?_⟩
  · obtain ⟨t, cat2, o2, h1, _, _, _, h5, _, _, h8, h9, h10, _⟩ :=
      handleInputChange_new_key fourFields 0 _ "basePath" "/api" (by decide) rfl hfour
    obtain ⟨_, hkeep, hperm⟩ := h10 _ rfl
    exact ⟨t, cat2, o2, h1, h5, h8, h9, hkeep "test" (by decide), hkeep "test2" (by decide),
      hkeep "test3" (by decide), hkeep "test4" (by decide), hperm⟩
  · obtain ⟨t, cat2, o2, h1, _, _, h4, h5, _, _, h8, h9, h10, _⟩ :=
      handleInputChange_new_key twoCategories 1 _ "basePath" "/api" (by decide) rfl htwo
    obtain ⟨_, hkeep, _⟩ := h10 _ rfl
    exact ⟨t, cat2, o2, h1, h4 0 (by decide), h5, h8, h9, hkeep "testInput2" (by decide)⟩
  · obtain ⟨t, cat2, o2, h1, _, _, _, h5, _, _, h8, _, _, h11⟩ :=
      handleInputChange_new_key noContent 0 _ "basePath" "/api" (by decide) rfl
        (fun o ho => absurd (show Content.undefined = Content.object o from ho) (by simp))
    exact ⟨t, cat2, o2, h1, h5, h8, h11 (Or.inl rfl)⟩

theorem transitions_total_on_valid_witness :
    twoCategories ≠ [] ∧ State.Valid ⟨JSNumber.int 1, twoCategories⟩ ∧
    (∃ j : Int, getPrev ⟨JSNumber.int 1, twoCategories⟩
        = Except.ok ⟨JSNumber.int j, twoCategories⟩) ∧
    (∃ t, handleCategoryChange ⟨JSNumber.int 0, []⟩ ⟨"Category #1"⟩ = Except.ok t ∧
      t.selectedIndex.isInteger = true) ∧
    (∃ t, handleInputChange ⟨JSNumber.int 1, twoCategories⟩ ⟨⟨"testInput2", "x"⟩⟩
        = Except.ok t ∧ t.selectedIndex.isInteger = true) :=
  ⟨by decide, by decide,
    (transitions_total_on_valid.1 twoCategories 1 (by decide)).1,
    transitions_total_on_valid.2.1 ⟨JSNumber.int 0, []⟩ ⟨"Category #1"⟩ rfl,
    transitions_total_on_valid.2.2 ⟨JSNumber.int 1, twoCategories⟩ ⟨⟨"testInput2", "x"⟩⟩
      (by decide)⟩

/-! ## The scenarios of `WizardDialog.test.jsx` and of the specification -/

theorem test_change_value_on_keystroke :
    handleInputChange ⟨JSNumber.int 0, basicInfo⟩ ⟨⟨"testInput", "test"⟩⟩
    = Except.ok
      ⟨JSNumber.int 0, [⟨"Basic info", Content.object ⟨[("testInput", "test")], by decide⟩, []⟩]⟩ := by
  decide

theorem test_change_categories :
    handleCategoryChange ⟨JSNumber.int 0, twoCategories⟩ ⟨"Category #2"⟩
    = Except.ok ⟨JSNumber.int 1, twoCategories⟩ := by
  decide

theorem test_create_four_inputs :
    (loadInputs ⟨JSNumber.int 0, fourFields⟩).map (fun r => r.inputs.length) = Except.ok 4 := by
  decide

theorem test_create_zero_inputs :
    loadInputs ⟨JSNumber.int 0, noContent⟩ = Except.ok (Rendered.text "") ∧
    loadInputs ⟨JSNumber.int 0, [⟨"Basic info", Content.null, []⟩]⟩
      = Except.ok (Rendered.text "") ∧
    loadInputs ⟨JSNumber.int 0, [⟨"Basic info", Content.object JSObject.empty, []⟩]⟩
      = Except.ok (Rendered.text "") := by
  decide

theorem test_previous_then_next :
    getPrev ⟨JSNumber.int 0, twoCategories ++ basicInfo⟩
      = Except.ok ⟨JSNumber.int 2, twoCategories ++ basicInfo⟩ ∧
    getNext ⟨JSNumber.int 2, twoCategories ++ basicInfo⟩
      = Except.ok ⟨JSNumber.int 0, twoCategories ++ basicInfo⟩ := by
  decide

theorem test_close_dialog :
    (closeWizard (⟨true, twoCategories, mockFn⟩ : Props (List (List Unit)) Unit)
      ⟨JSNumber.int 0, twoCategories⟩ []).2 = [[]] := by
  decide

theorem arrayIndex_examples :
    arrayIndex? "10" = some 10 ∧ arrayIndex? "010" = none ∧ arrayIndex? "" = none ∧
    arrayIndex? "a1" = none ∧ arrayIndex? "4294967295" = none ∧
    arrayIndex? "4294967294" = some 4294967294 := by
  decide

theorem set_order_examples :
    (JSObject.set ⟨[("1", "a"), ("b", "c")], by decide⟩ "0" "z").entries
      = [("0", "z"), ("1", "a"), ("b", "c")] ∧
    (JSObject.set ⟨[("1", "a"), ("b", "c")], by decide⟩ "b" "z").entries
      = [("1", "a"), ("b", "z")] ∧
    (JSObject.set ⟨[("1", "a"), ("b", "c")], by decide⟩ "x" "z").entries
      = [("1", "a"), ("b", "c"), ("x", "z")] := by
  decide

end WizardDialog
